import Mathlib

/-!
# Verification of the `librad` git storage core

A shallow embedding of `librad/src/git/storage.rs` (the `Storage` type and its
operations: `create_repo`, `clone_repo`, `rad_refs`, `rad_refs_of`,
`update_refs`, `track`, `untrack`, `tracked`, `has_commit`, `has_urn`,
`has_ref`, `open`/`init`/`with_signer`/`open_or_init`), together with proofs
of the behavioural properties claimed by the specification.

Modelling conventions:

* The git object database is content-addressed; hashing is modelled as a
  perfect injection, so an object id (`Oid`) *is* the object it names
  (a standard collision-free model of content addressing).
* Fully qualified reference names `refs/namespaces/<id>/refs/[remotes/<peer>/]
  <category>` are represented structurally (`RefName`); the grammar of §4.1 of
  the specification is injective, so the structured form is isomorphic to the
  string form used by the source.
* Configured git remote names are represented by `RemoteName`: a name of the
  shape `<namespace-id>/<peer>` (the only shape `tracking_remote_name`
  produces, and the only shape on which strip-prefix-then-parse succeeds) is
  `RemoteName.tracking ns peer`; every other configured name is
  `RemoteName.other s`.
* Canonical JSON is a deterministic, injective serialization; blobs therefore
  store the serialized value structurally (`Oid.blobEntity`,
  `Oid.blobSignedRefs`).
* Ed25519 signing is deterministic and verification succeeds exactly for the
  signer's key, so a signature over a `Refs` value is modelled by recording
  the signer (`signedBy`).
* Backend (libgit2) I/O faults are not modelled: backend operations fail only
  for the reasons the code inspects (not-found, already-exists, non-fast-
  forward reference updates).
-/

set_option autoImplicit false

namespace Radicle

/-- A public key (source: `keys::PublicKey`), identified by an abstract value. -/
structure PublicKey where
  val : Nat
deriving DecidableEq

/-- A secret key (source: `keys::SecretKey`). Key derivation is injective. -/
structure SecretKey where
  val : Nat
deriving DecidableEq

/-- Model of `SecretKey::public`. -/
def SecretKey.publicKey (k : SecretKey) : PublicKey :=
  ⟨k.val⟩

/-- A peer identifier, which wraps the peer's public key (source: `peer::PeerId`). -/
structure PeerId where
  val : Nat
deriving DecidableEq

/-- Model of `PeerId::from(&PublicKey)`. -/
def PeerId.ofPublic (pk : PublicKey) : PeerId :=
  ⟨pk.val⟩

/-- Model of `PeerId::from(&SecretKey)`. -/
def PeerId.ofSecret (k : SecretKey) : PeerId :=
  PeerId.ofPublic k.publicKey

/-- An identity root hash (source: `hash::Hash`). -/
structure Hash where
  val : Nat
deriving DecidableEq

/-- The category of a namespaced reference (source: `git::types::Reference`
categories): `rad/id`, `rad/self`, `rad/refs`, `rad/ids/<hash>`, and
`heads/<branch>`. -/
inductive RefKind where
  | rad_id
  | rad_self
  | rad_refs
  | rad_certifier (h : Hash)
  | head (branch : String)
deriving DecidableEq

/-- A URN `rad:git:<id>[/<path>]` (source: `uri::RadUrn`).  The optional
`path` names a reference inside the identity's namespace; it defaults to
`rad/id` when empty (`path.deref_or_default()` after stripping `refs/`). -/
structure RadUrn where
  id : Hash
  path : Option RefKind
deriving DecidableEq

/-- A URL `rad+git://<peer>@<id>` (source: `uri::RadUrl`). -/
structure RadUrl where
  urn : RadUrn
  authority : PeerId
deriving DecidableEq

/-- A fully qualified reference name
`refs/namespaces/<namespc>/refs/[remotes/<remote>/]<kind>`
(source: `git::types::Reference` and the glob grammar of §4.1). -/
structure RefName where
  namespc : Hash
  remote : Option PeerId
  kind : RefKind
deriving DecidableEq

/-- Model of `Reference::rad_id(ns)`. -/
def RefName.rad_id (ns : Hash) : RefName :=
  ⟨ns, none, .rad_id⟩

/-- Model of `Reference::rad_self(ns, peer)`. -/
def RefName.rad_self (ns : Hash) (peer : Option PeerId) : RefName :=
  ⟨ns, peer, .rad_self⟩

/-- Model of `Reference::rad_refs(ns, peer)`. -/
def RefName.rad_refs (ns : Hash) (peer : Option PeerId) : RefName :=
  ⟨ns, peer, .rad_refs⟩

/-- Model of `Reference::rad_certifier(ns, urn)`. -/
def RefName.rad_certifier (ns : Hash) (certifier : RadUrn) : RefName :=
  ⟨ns, none, .rad_certifier certifier.id⟩

/-- The name of a configured git remote.  `tracking ns peer` stands for the
string `"<ns>/<peer>"` (the only form `tracking_remote_name` produces and the
only form on which stripping the `"<ns>/"` prefix and parsing the suffix as a
`PeerId` succeeds); `other s` stands for any other configured remote name. -/
inductive RemoteName where
  | tracking (ns : Hash) (peer : PeerId)
  | other (s : String)
deriving DecidableEq

/-- Model of `tracking_remote_name(urn, peer)`, i.e. `format!("{}/{}", urn.id, peer)`. -/
def tracking_remote_name (urn : RadUrn) (peer : PeerId) : RemoteName :=
  .tracking urn.id peer

/-- Who a signature was made by (source: `meta::entity::Signatory`). -/
inductive Signatory where
  | ownedKey
  | user (urn : RadUrn)
deriving DecidableEq

/-- An entity signature; only its `by` field is inspected by the storage
code (signature bytes are opaque to it). -/
structure EntitySignature where
  by_ : Signatory
deriving DecidableEq

/-- The parts of an `Entity<T, Draft>` that `Storage` reads: the root hash,
the signature map and the certifier set
(source: `meta::entity::Entity`, consumed by `storage.rs`). -/
structure EntityData where
  rootHash : Hash
  signatures : List (PublicKey × EntitySignature)
  certifiers : List RadUrn
deriving DecidableEq

/-- Model of `Entity::urn()`: the URN of the entity's root hash, with empty path. -/
def EntityData.urn (e : EntityData) : RadUrn :=
  ⟨e.rootHash, none⟩

/-- Model of `signatures().get(pk)` on the signature map. -/
def EntityData.sigOf (e : EntityData) (pk : PublicKey) : Option EntitySignature :=
  (e.signatures.find? (fun pr => pr.1 = pk)).map (·.2)

/-- The transitive remotes tree of a `Refs` snapshot, three levels deep:
first-degree peer → second-degree peer → third-degree peers
(source: `git::refs::Remotes`; spec §3 invariant 7). -/
abbrev Remotes := List (PeerId × List (PeerId × List PeerId))

/-- Modelled from the spec: `Remotes::cutoff` (module `git::refs`, whose
source is not part of the provided files) truncates a peer's transitive
remotes tree "to two further levels", dropping the innermost (third) level
(spec §4.4 `rad_refs`, §3 invariant 7). -/
def Remotes.cutoff (r : Remotes) : List (PeerId × List PeerId) :=
  r.map (fun pr => (pr.1, pr.2.map Prod.fst))

mutual

/-- A content-addressed object id.  With a perfect hash the id determines the
object, so the id carries the object's content: the all-zero id, blobs
(holding the canonical JSON of an entity or of a signed `Refs` snapshot —
the only blobs this code reads or writes), trees, and commits. -/
inductive Oid where
  | zero
  | blobEntity (e : EntityData)
  | blobSignedRefs (heads : Entries) (remotes : Remotes) (signedBy : PeerId)
  | tree (entries : Entries)
  | commit (t : Oid) (parents : OidList) (msg : String)
deriving DecidableEq

/-- Named tree entries / named head-to-oid pairs. -/
inductive Entries where
  | nil
  | cons (name : String) (oid : Oid) (rest : Entries)
deriving DecidableEq

/-- A list of object ids (commit parents). -/
inductive OidList where
  | nil
  | cons (o : Oid) (rest : OidList)
deriving DecidableEq

end

/-- Convert a `List (String × Oid)` to `Entries`. -/
def Entries.ofList : List (String × Oid) → Entries
  | [] => .nil
  | (n, o) :: rest => .cons n o (Entries.ofList rest)

/-- Convert `Entries` to a `List (String × Oid)`. -/
def Entries.toList : Entries → List (String × Oid)
  | .nil => []
  | .cons n o rest => (n, o) :: Entries.toList rest

/-- Look up a tree entry by name (`Tree::get_path` on a flat tree). -/
def Entries.lookup : Entries → String → Option Oid
  | .nil, _ => none
  | .cons n o rest, path => if n = path then some o else Entries.lookup rest path

/-- Is the object a commit? -/
def Oid.isCommit : Oid → Bool
  | .commit _ _ _ => true
  | _ => false

/-- Is the object a blob? -/
def Oid.isBlob : Oid → Bool
  | .blobEntity _ => true
  | .blobSignedRefs _ _ _ => true
  | _ => false

/-- Model of `Commit::tree()`: the tree of a commit. -/
def Oid.treeOf : Oid → Option Oid
  | .commit t _ _ => some t
  | _ => none

mutual

/-- Model of `Repository::graph_descendant_of(o, anc)`: `o` is a strict descendant of
`anc`, i.e. `anc` occurs among the ancestors of `o`. -/
def Oid.descends : Oid → Oid → Bool
  | .commit _ ps _, anc => OidList.hitsAncestor ps anc
  | _, _ => false

/-- Does any commit in the list equal, or descend from, `anc`? -/
def OidList.hitsAncestor : OidList → Oid → Bool
  | .nil, _ => false
  | .cons p rest, anc =>
    decide (p = anc) || Oid.descends p anc || OidList.hitsAncestor rest anc

end

/-- The target of a git reference: direct (an oid) or symbolic (another
reference name). -/
inductive RefTarget where
  | direct (oid : Oid)
  | symbolic (target : RefName)
deriving DecidableEq

/-- The state of the bare backend repository: its references, its configured
remotes (in configuration order), and its object database (the objects that
have been written; content addressing makes the id the content). -/
structure Store where
  refs : List (RefName × RefTarget)
  remotes : List RemoteName
  objects : List Oid
deriving DecidableEq

/-- Model of `Repository::find_reference` on an association list of references. -/
def findRefList : List (RefName × RefTarget) → RefName → Option RefTarget
  | [], _ => none
  | pr :: rest, n => if pr.1 = n then some pr.2 else findRefList rest n

/-- Model of `Repository::find_reference`. -/
def findRef (s : Store) (n : RefName) : Option RefTarget :=
  findRefList s.refs n

/-- Set (create or overwrite) a reference: replace the binding if the name
exists, append it otherwise.  Reference names are unique in git, so at most
one binding is replaced. -/
def setRefList : List (RefName × RefTarget) → RefName → RefTarget → List (RefName × RefTarget)
  | [], n, t => [(n, t)]
  | pr :: rest, n, t => if pr.1 = n then (n, t) :: rest else pr :: setRefList rest n t

/-- Set a reference in the store. -/
def setRef (s : Store) (n : RefName) (t : RefTarget) : Store :=
  { s with refs := setRefList s.refs n t }

/-- Errors surfaced by `Storage` (source: `storage::Error`).  Backend errors
(`Error::Git`) are split by the only property the code inspects,
`is_not_found_err`; `refsig` covers `Error::Refsig` (signature verification
or decoding failure of a signed `Refs`), `entity` covers `Error::Entity`,
`config` covers `Error::Config`, `blobNotFound` covers
`Error::Blob(blob::Error::NotFound)`. -/
inductive Error where
  | alreadyExists (urn : RadUrn)
  | noSuchUrn (urn : RadUrn)
  | rootHashMismatch (expected actual : Hash)
  | unsignedMetadata
  | signerKeyMismatch
  | selfReferential
  | notSignedBySelf
  | noSelf (r : RefName)
  | missingCertifier (certifier urn : RadUrn)
  | blobNotFound (r : RefName)
  | refsig
  | entity
  | config
  | gitNotFound
  | gitOther (msg : String)
deriving DecidableEq

/-- libgit2 resolves symbolic references through at most 5 indirections. -/
def symrefMaxDepth : Nat := 5

/-- Resolve a reference name to an oid, following symbolic references
(`Reference::resolve`), with libgit2's nesting limit. -/
def resolveName (s : Store) : Nat → RefName → Option Oid
  | 0, _ => none
  | fuel + 1, n =>
    match findRef s n with
    | some (.direct o) => some o
    | some (.symbolic m) => resolveName s fuel m
    | none => none

/-- Resolve a reference target to an oid. -/
def resolveTarget (s : Store) : RefTarget → Option Oid
  | .direct o => some o
  | .symbolic m => resolveName s symrefMaxDepth m

/-- Model of `Reference::peel_to_commit`: resolve and require a commit. -/
def peelToCommit (s : Store) (t : RefTarget) : Option Oid :=
  match resolveTarget s t with
  | some o => if o.isCommit then some o else none
  | none => none

/-- Modelled from the spec: `Blob::Tip { branch, path }.get(backend)`
(module `git::ext::blob`, whose source is not part of the provided files)
reads the blob at `path` in the tree of the commit at the tip of `branch`,
failing with `blob::Error::NotFound` when the branch or the path entry is
absent (spec §4.4: read "the `id` blob at the tip of `rad/id`", failing
"with a blob-not-found error if the reference is absent"). -/
def blobTip (s : Store) (branch : RefName) (path : String) : Except Error Oid :=
  match findRef s branch with
  | none => .error (.blobNotFound branch)
  | some t =>
    match peelToCommit s t with
    | none => .error (.gitOther "peel")
    | some c =>
      match c.treeOf with
      | some (.tree entries) =>
        match entries.lookup path with
        | some o => if o.isBlob then .ok o else .error (.blobNotFound branch)
        | none => .error (.blobNotFound branch)
      | _ => .error (.gitOther "tree")

/-- Model of `Repository::find_commit`: the object exists in the database and is a
commit; both a missing object and a non-commit object are reported as
not-found. -/
def find_commit (s : Store) (oid : Oid) : Option Oid :=
  if oid ∈ s.objects ∧ oid.isCommit then some oid else none

/-- Append freshly written objects to the object database. -/
def addObjects (s : Store) (os : List Oid) : Store :=
  { s with objects := s.objects ++ os }

/-- Model of `Repository::commit(Some(refname), …)`: write the objects and point the
reference at the new commit. -/
def commitOnto (s : Store) (r : RefName) (blob tree c : Oid) : Store :=
  addObjects (setRef s r (.direct c)) [blob, tree, c]

/-- A signed `Refs` snapshot of the local reference state for one identity
(source: `git::refs::Refs`): the branch tips and the transitive remotes
tree. -/
structure Refs where
  heads : List (String × Oid)
  remotes : Remotes
deriving DecidableEq

/-- Model of `Storage<WithSigner>`: the backend handle, the local peer id, and the
local signing key. -/
structure Storage where
  backend : Store
  peer_id : PeerId
  signer : SecretKey
deriving DecidableEq

/-- Replace the backend state of a handle. -/
def Storage.setBackend (st : Storage) (b : Store) : Storage :=
  { st with backend := b }

/-- Model of `Storage::has_ref`. -/
def has_ref (s : Store) (r : RefName) : Bool :=
  (findRef s r).isSome

/-- Model of `Storage::has_urn`: look up
`refs/namespaces/<urn.id>/refs/<urn.path or "rad/id">`. -/
def has_urn (s : Store) (urn : RadUrn) : Bool :=
  (findRef s ⟨urn.id, none, urn.path.getD .rad_id⟩).isSome

/-- The `Tracked` iterator (source: `Tracked::collect` plus
`Iterator::next`): walk the configured remotes in order; for each name,
strip the `"<ns>/"` prefix and parse the suffix as a `PeerId`
(`RemoteName.tracking ns p` is exactly the name on which this succeeds,
yielding `p`); names that fail either step are skipped. -/
def trackedCollect (remotes : List RemoteName) (ns : Hash) : List PeerId :=
  match remotes with
  | [] => []
  | .tracking ns' p :: rest =>
    if ns' = ns then p :: trackedCollect rest ns else trackedCollect rest ns
  | .other _ :: rest => trackedCollect rest ns

/-- Model of `Storage::tracked(urn)` (the iterator, fully consumed). -/
def Storage.tracked (st : Storage) (urn : RadUrn) : List PeerId :=
  trackedCollect st.backend.remotes urn.id

/-- Model of `Storage::references_glob` at the glob `refs/heads/*`: the references
`refs/namespaces/<urn.id>/refs/heads/<branch>`, peeled to their oids, with
the namespace prefix stripped from the names. -/
def references_glob_heads (s : Store) (urn : RadUrn) : List (String × Oid) :=
  s.refs.filterMap (fun pr =>
    match pr.1 with
    | ⟨ns, none, .head branch⟩ =>
      if ns = urn.id then
        (resolveTarget s pr.2).map (fun o => ("refs/heads/" ++ branch, o))
      else none
    | _ => none)

/-- Model of `Storage::rad_refs_of(urn, peer)`: read the blob `refs` at the tip of
`refs/namespaces/<urn.id>/refs/remotes/<peer>/rad/refs` and verify the
signature against `peer` (`refs::Signed::from_json`; a wrong signer or
undecodable content is an `Error::Refsig`). -/
def Storage.rad_refs_of (st : Storage) (urn : RadUrn) (peer : PeerId) : Except Error Refs :=
  match blobTip st.backend ⟨urn.id, some peer, .rad_refs⟩ "refs" with
  | .error e => .error e
  | .ok (.blobSignedRefs heads remotes signedBy) =>
    if signedBy = peer then .ok ⟨heads.toList, remotes⟩ else .error .refsig
  | .ok _ => .error .refsig

/-- The body of the loop in `Storage::rad_refs`: for a first-degree tracked
peer, its entry is the `cutoff` of its signed remotes; a missing `rad/refs`
blob (`Error::Blob(blob::Error::NotFound)`) yields an empty entry; any other
error aborts. -/
def radRefsEntry (st : Storage) (urn : RadUrn) (peer : PeerId) :
    Except Error (PeerId × List (PeerId × List PeerId)) :=
  match st.rad_refs_of urn peer with
  | .ok refs => .ok (peer, refs.remotes.cutoff)
  | .error (.blobNotFound _) => .ok (peer, [])
  | .error e => .error e

/-- Model of `Storage::rad_refs(urn)`: collect the `refs/heads/*` tips, collect the
first-degree tracked peers, and fill each peer's entry from its signed
`rad/refs` snapshot. -/
def Storage.rad_refs (st : Storage) (urn : RadUrn) : Except Error Refs :=
  match (st.tracked urn).mapM (radRefsEntry st urn) with
  | .error e => .error e
  | .ok remotes => .ok ⟨references_glob_heads st.backend urn, remotes⟩

/-- Model of `Storage::some_metadata_of(urn, peer)`: read the blob `id` at the tip of
`rad/id` (with the given remote) and decode it as an entity. -/
def Storage.some_metadata_of (st : Storage) (urn : RadUrn) (peer : Option PeerId) :
    Except Error EntityData :=
  match blobTip st.backend ⟨urn.id, peer, .rad_id⟩ "id" with
  | .error e => .error e
  | .ok (.blobEntity e) => .ok e
  | .ok _ => .error .entity

/-- Model of `Storage::has_commit(urn, oid)`: `false` for the zero oid and for an oid
that does not name a commit in the object database; otherwise walk the
reference named by the URN's path (default `rad/id`) and test whether its
peeled tip equals the commit or descends from it. -/
def Storage.has_commit (st : Storage) (urn : RadUrn) (oid : Oid) : Except Error Bool :=
  if oid = .zero then .ok false
  else
    match find_commit st.backend oid with
    | none => .ok false
    | some c =>
      let tips :=
        match findRef st.backend ⟨urn.id, none, urn.path.getD .rad_id⟩ with
        | none => []
        | some t =>
          match resolveTarget st.backend t with
          | some o => [o]
          | none => []
      .ok (tips.any (fun o => decide (o = c) || o.descends c))

/-- Model of `Storage::track(urn, peer)`: refuse the local peer (`SelfReferential`);
otherwise create the remote `<urn.id>/<peer>`, succeeding idempotently when
it already exists (the source matches `is_exists_err` to `Ok(())`). -/
def Storage.track (st : Storage) (urn : RadUrn) (peer : PeerId) :
    Except Error Unit × Storage :=
  if peer = st.peer_id then (.error .selfReferential, st)
  else
    let remote_name := tracking_remote_name urn peer
    if remote_name ∈ st.backend.remotes then (.ok (), st)
    else (.ok (), st.setBackend { st.backend with remotes := st.backend.remotes ++ [remote_name] })

/-- Model of `Storage::untrack(urn, peer)`: `remote_delete` the remote
`<urn.id>/<peer>`; deleting a remote that does not exist is a backend
not-found error.  (The deletion of remote-tracking branches matched by the
remote's fetchspec — the `TODO` in the source — touches only references
under `remotes/<peer>/`, which no claim inspects, and is elided.) -/
def Storage.untrack (st : Storage) (urn : RadUrn) (peer : PeerId) :
    Except Error Unit × Storage :=
  let remote_name := tracking_remote_name urn peer
  if remote_name ∈ st.backend.remotes then
    (.ok (), st.setBackend { st.backend with remotes := st.backend.remotes.filter (fun r => r ≠ remote_name) })
  else (.error .gitNotFound, st)

/-- Model of `Storage::delete_repo(urn)`: delete every reference under
`refs/namespaces/<urn.id>/`. -/
def Storage.delete_repo (st : Storage) (urn : RadUrn) : Storage :=
  st.setBackend { st.backend with refs := st.backend.refs.filter (fun pr => pr.1.namespc ≠ urn.id) }

/-- The canonical-form blob of `rad_refs(urn).sign(&self.signer)`: ed25519
signing is deterministic, so the signed snapshot is determined by the `Refs`
value and the signer, and verification succeeds exactly for the signer's
peer id. -/
def signedRefsBlob (refs : Refs) (signer : SecretKey) : Oid :=
  .blobSignedRefs (Entries.ofList refs.heads) refs.remotes (PeerId.ofSecret signer)

/-- Model of `Storage::update_refs(urn)`: recompute `rad_refs`, sign it,
build the one-entry tree, and commit it onto
`refs/namespaces/<urn.id>/refs/rad/refs` — unless the new tree equals the
parent commit's tree, in which case nothing is written.  A missing (or
unpeelable) `rad/refs` reference yields an orphan (parentless) commit.  The
commit message is empty. -/
def Storage.update_refs (st : Storage) (urn : RadUrn) : Except Error Unit × Storage :=
  match st.rad_refs urn with
  | .error e => (.error e, st)
  | .ok refs =>
    let rad_refs_ref : RefName := RefName.rad_refs urn.id none
    let parent : Option Oid :=
      match findRef st.backend rad_refs_ref with
      | none => none
      | some t => peelToCommit st.backend t
    let blob := signedRefsBlob refs st.signer
    let tree := Oid.tree (.cons "refs" blob .nil)
    match parent with
    | some p =>
      if p.treeOf = some tree then (.ok (), st)
      else
        (.ok (), st.setBackend
          (commitOnto st.backend rad_refs_ref blob tree (.commit tree (.cons p .nil) "")))
    | none =>
      (.ok (), st.setBackend
        (commitOnto st.backend rad_refs_ref blob tree (.commit tree .nil "")))

/-- Model of `Storage::commit_initial_meta(meta)`: commit the canonical form
of the entity as the single-entry tree `[id ↦ blob]` onto `rad/id`, as an
orphan commit.  `Repository::commit` with an empty parent list fails when the
reference already has a tip (the tip would have to be the first parent). -/
def Storage.commit_initial_meta (st : Storage) (meta : EntityData) : Except Error Oid × Storage :=
  let blob := Oid.blobEntity meta
  let tree := Oid.tree (.cons "id" blob .nil)
  let branch := RefName.rad_id meta.urn.id
  let c := Oid.commit tree .nil ("Initialised with identity " ++ toString meta.rootHash.val)
  match findRef st.backend branch with
  | some _ => (.error (.gitOther "current tip is not the first parent"), st)
  | none => (.ok c, st.setBackend (commitOnto st.backend branch blob tree c))

/-- Model of `Repository::reference_symbolic(src, target, force, …)`:
creating over an existing reference fails unless `force` is set. -/
def referenceSymbolic (s : Store) (src target : RefName) (force : Bool) : Except Error Store :=
  if (findRef s src).isSome && !force then .error (.gitOther "exists")
  else .ok (setRef s src (.symbolic target))

/-- The symbolic references created by `create_repo` (step 8):
`rad/self → rad_self_target`, then `rad/ids/<C.id> → rad_id(C)` for each
certifier `C`. -/
def symrefPairs (meta : EntityData) (rad_self rad_self_target : RefName) :
    List (RefName × RefName) :=
  (rad_self, rad_self_target) :: meta.certifiers.map (fun certifier =>
    (RefName.rad_certifier meta.urn.id certifier, RefName.rad_id certifier.id))

/-- Create a list of forced symbolic references, stopping at the first
failure (`try_for_each`). -/
def createSymrefsGo (s : Store) : List (RefName × RefName) → Except Error Store
  | [] => .ok s
  | (src, target) :: rest =>
    match referenceSymbolic s src target true with
    | .error e => .error e
    | .ok s' => createSymrefsGo s' rest

/-- The signer list of `track_signers`: each signature's peer id, paired
with the signatory's user URN when the signature was made by a `User`. -/
def trackSignersList (meta : EntityData) : List (PeerId × Option RadUrn) :=
  meta.signatures.map (fun pr =>
    match pr.2.by_ with
    | .user urn => (PeerId.ofPublic pr.1, some urn)
    | .ownedKey => (PeerId.ofPublic pr.1, none))

/-- The `try_for_each` loop of `track_signers`: track each signer's version
of this repo, and of the identity it signed with (if any). -/
def trackSignersGo (meta_urn : RadUrn) :
    Storage → List (PeerId × Option RadUrn) → Except Error Unit × Storage
  | st, [] => (.ok (), st)
  | st, (peer, urnOpt) :: rest =>
    match st.track meta_urn peer with
    | (.error e, st') => (.error e, st')
    | (.ok _, st1) =>
      match urnOpt with
      | none => trackSignersGo meta_urn st1 rest
      | some urn =>
        match st1.track urn peer with
        | (.error e, st') => (.error e, st')
        | (.ok _, st2) => trackSignersGo meta_urn st2 rest

/-- Model of `Storage::track_signers(meta)`: track every signer other than
the local peer. -/
def Storage.track_signers (st : Storage) (meta : EntityData) : Except Error Unit × Storage :=
  trackSignersGo meta.urn st ((trackSignersList meta).filter (fun pr => pr.1 ≠ st.peer_id))

/-- The `rad_self_target` of `create_repo`: `rad/id` itself when the local
signature is by an owned key, the signing user's `rad/id` otherwise. -/
def radSelfTarget (meta : EntityData) (self_sig : EntitySignature) : RefName :=
  match self_sig.by_ with
  | .ownedKey => RefName.rad_id meta.urn.id
  | .user u => RefName.rad_id u.id

/-- The mutation tail of `create_repo` (steps 8-10), entered after the
initial commit of step 7 succeeded on `st1`: create the symbolic references
(running `delete_repo` before returning an error from that step — the
partially created symbolic references all live inside the purged namespace,
so purging the pre-symref state yields the same result), then run
`track_signers` and `update_refs`, whose errors propagate as-is. -/
def createRepoMutations (st1 : Storage) (meta : EntityData) (urn : RadUrn)
    (rad_self rad_self_target : RefName) : Except Error RadUrn × Storage :=
  match createSymrefsGo st1.backend (symrefPairs meta rad_self rad_self_target) with
  | .error e => (.error e, st1.delete_repo urn)
  | .ok b2 =>
    let st2 := st1.setBackend b2
    match st2.track_signers meta with
    | (.error e, st') => (.error e, st')
    | (.ok _, st3) =>
      match st3.update_refs urn with
      | (.error e, st') => (.error e, st')
      | (.ok _, st4) => (.ok urn, st4)

/-- Model of `Storage::create_repo(meta)` (steps 1-10 of spec §4.5): reject
empty signatures (`UnsignedMetadata`), a missing local signature
(`NotSignedBySelf`), an unresolvable `rad_self_target` (`NoSelf`), and a
locally missing certifier (`MissingCertifier`); then commit the identity
onto `rad/id`, create the symbolic references (running `delete_repo` if
that step fails), and run `track_signers` and `update_refs` (whose failures
propagate as-is).  In the symbolic-reference failure branch the purge is
applied to the post-commit state; the partially created symbolic references
all live inside the purged namespace, so the purged result is the same. -/
def Storage.create_repo (st : Storage) (meta : EntityData) : Except Error RadUrn × Storage :=
  if meta.signatures.isEmpty then (.error .unsignedMetadata, st)
  else
    let urn : RadUrn := ⟨meta.rootHash, none⟩
    match meta.sigOf st.signer.publicKey with
    | none => (.error .notSignedBySelf, st)
    | some self_sig =>
      let rad_id := RefName.rad_id meta.urn.id
      let rad_self := RefName.rad_self meta.urn.id none
      let rad_self_target := radSelfTarget meta self_sig
      if rad_id ≠ rad_self_target ∧ has_ref st.backend rad_self_target = false then
        (.error (.noSelf rad_self_target), st)
      else
        match meta.certifiers.find? (fun c => !has_urn st.backend c) with
        | some certifier => (.error (.missingCertifier certifier urn), st)
        | none =>
          match st.commit_initial_meta meta with
          | (.error e, st') => (.error e, st')
          | (.ok _, st1) => createRepoMutations st1 meta urn rad_self rad_self_target

/-- Modelled from the spec: the `Fetcher` capability (spec §4.8; module
`storage::fetch`, whose source is not part of the provided files).  It is
bound to the remote peer's URL; `prefetchFn` pulls only the remote's
identity references, `fetchFn` performs the negotiated fetch.  Both
transform the backend state. -/
structure Fetcher where
  url : RadUrl
  prefetchFn : Store → Except Error Store
  fetchFn : Store → Except Error Store

/-- The certifier hashes advertised by `remote_peer` in a namespace: the
references `refs/namespaces/<ns>/refs/remotes/<peer>/rad/ids/<hash>`. -/
def certifierHashesOf (s : Store) (ns : Hash) (peer : PeerId) : List Hash :=
  s.refs.filterMap (fun pr =>
    match pr.1 with
    | ⟨ns', some p, .rad_certifier h⟩ => if ns' = ns ∧ p = peer then some h else none
    | _ => none)

/-- The certifier symref loop of `fetch_internal`: for each advertised
certifier, create (non-forced) the local symbolic link
`rad/ids/<hash> → refs/namespaces/<hash>/refs/rad/id`. -/
def symrefCertifiersGo (s : Store) (ns : Hash) : List Hash → Except Error Store
  | [] => .ok s
  | h :: rest =>
    match referenceSymbolic s ⟨ns, none, .rad_certifier h⟩ (RefName.rad_id h) false with
    | .error e => .error e
    | .ok s' => symrefCertifiersGo s' ns rest

/-- Model of `Storage::fetch_internal(fetcher)`: compute the transitive
tracking view via `rad_refs`, run the fetcher, create the certifier
symrefs advertised by the remote peer, and `update_refs` once (no
recursion). -/
def Storage.fetch_internal (st : Storage) (fetcher : Fetcher) : Except Error Unit × Storage :=
  let urn : RadUrn := fetcher.url.urn
  let remote_peer := fetcher.url.authority
  match st.rad_refs urn with
  | .error e => (.error e, st)
  | .ok _ =>
    match fetcher.fetchFn st.backend with
    | .error e => (.error e, st)
    | .ok b1 =>
      let st1 := st.setBackend b1
      match symrefCertifiersGo st1.backend urn.id (certifierHashesOf st1.backend urn.id remote_peer) with
      | .error e => (.error e, st1)
      | .ok b2 => (st1.setBackend b2).update_refs urn

/-- Model of `Storage::fetch_repo(url)`: build a fetcher and run
`fetch_internal`. -/
def Storage.fetch_repo (st : Storage) (fetcher : Fetcher) : Except Error Unit × Storage :=
  st.fetch_internal fetcher

/-- Model of `Storage::clone_repo(url)` (spec §4.5): reject an existing URN
(`AlreadyExists`); prefetch; read the remote's metadata; validate it
(non-empty signatures, matching root hash), running `delete_repo` before
propagating a validation failure; adopt the remote's `rad/id` as ours
(a direct, non-forced reference); then `track_signers`, `update_refs` and
the full `fetch_internal` flow. -/
def Storage.clone_repo (st : Storage) (url : RadUrl)
    (prefetchFn fetchFn : Store → Except Error Store) : Except Error RadUrn × Storage :=
  let fetcher : Fetcher := ⟨url, prefetchFn, fetchFn⟩
  let remote_peer := url.authority
  let urn : RadUrn := ⟨url.urn.id, none⟩
  if has_urn st.backend urn then (.error (.alreadyExists urn), st)
  else
    match fetcher.prefetchFn st.backend with
    | .error e => (.error e, st)
    | .ok b1 =>
      let st1 := st.setBackend b1
      match st1.some_metadata_of urn (some remote_peer) with
      | .error e => (.error e, st1)
      | .ok meta =>
        if meta.signatures.isEmpty then (.error .unsignedMetadata, st1.delete_repo urn)
        else if meta.rootHash ≠ urn.id then
          (.error (.rootHashMismatch urn.id meta.rootHash), st1.delete_repo urn)
        else
          let local_id := RefName.rad_id urn.id
          let remote_id : RefName := ⟨urn.id, some remote_peer, .rad_id⟩
          match findRef st1.backend remote_id with
          | none => (.error .gitNotFound, st1)
          | some (.symbolic _) => (.error (.gitOther "We just read it, but now it is gone"), st1)
          | some (.direct remote_id_head) =>
            if (findRef st1.backend local_id).isSome then (.error (.gitOther "exists"), st1)
            else
              let st2 := st1.setBackend (setRef st1.backend local_id (.direct remote_id_head))
              match st2.track_signers meta with
              | (.error e, st') => (.error e, st')
              | (.ok _, st3) =>
                match st3.update_refs urn with
                | (.error e, st') => (.error e, st')
                | (.ok _, st4) =>
                  match st4.fetch_internal fetcher with
                  | (.error e, st') => (.error e, st')
                  | (.ok _, st5) => (.ok urn, st5)

/-- The on-disk state found at a `Paths`' git_dir: no repository yet, an
initialised store whose config records a peer id, or a repository whose
config cannot be read. -/
inductive Disk where
  | absent
  | initialized (peer : PeerId) (backend : Store)
  | corrupt
deriving DecidableEq

/-- Model of `Storage<NoSigner>`: a handle without signing material. -/
structure StorageNoSigner where
  backend : Store
  peer_id : PeerId
deriving DecidableEq

/-- Model of `Storage::open(paths)`: open the bare store (a backend
not-found error when absent) and read the peer id from the config (a config
error when unreadable). -/
def openStorage (d : Disk) : Except Error StorageNoSigner :=
  match d with
  | .absent => .error .gitNotFound
  | .initialized p b => .ok ⟨b, p⟩
  | .corrupt => .error .config

/-- Model of `Storage::with_signer(signer)`: upgrade a no-signer handle,
enforcing that the stored peer id matches the key (`SignerKeyMismatch`). -/
def StorageNoSigner.with_signer (this : StorageNoSigner) (signer : SecretKey) :
    Except Error Storage :=
  if this.peer_id ≠ PeerId.ofSecret signer then .error .signerKeyMismatch
  else .ok ⟨this.backend, this.peer_id, signer⟩

/-- A freshly initialised bare store. -/
def emptyStore : Store :=
  ⟨[], [], []⟩

/-- Model of `Storage::init(paths, signer)`: create the bare store (refusing
to reinitialise an existing one), write the peer id derived from the signer
into the config, and keep the signer. -/
def initStorage (d : Disk) (signer : SecretKey) : Except Error (Storage × Disk) :=
  match d with
  | .absent =>
    .ok (⟨emptyStore, PeerId.ofSecret signer, signer⟩,
      .initialized (PeerId.ofSecret signer) emptyStore)
  | _ => .error (.gitOther "could not reinit")

/-- Model of `Storage::open_or_init(paths, signer)`: open, check the peer id
against the signer (`SignerKeyMismatch`), and upgrade; fall back to `init`
exactly when `open` failed with a not-found backend error; propagate any
other error. -/
def open_or_init (d : Disk) (signer : SecretKey) : Except Error Storage :=
  match openStorage d with
  | .ok this =>
    if this.peer_id ≠ PeerId.ofSecret signer then .error .signerKeyMismatch
    else this.with_signer signer
  | .error .gitNotFound => (initStorage d signer).map Prod.fst
  | .error e => .error e

/-!
## Auxiliary predicates used by the theorems
-/

/-- No reference in the store is a symbolic link pointing at `r`.  (This
holds of every store the code itself builds for `r = rad/refs ns`: the code
creates symbolic references only for `rad/self` and `rad/ids/*` targets,
never targeting `rad/refs`.) -/
def NoSymTo (s : Store) (r : RefName) : Prop :=
  ∀ pr ∈ s.refs, pr.2 ≠ RefTarget.symbolic r

instance (s : Store) (r : RefName) : Decidable (NoSymTo s r) :=
  List.decidableBAll _ s.refs

/-- The number of commit objects in an object database. -/
def countCommits (os : List Oid) : Nat :=
  os.countP (fun o => o.isCommit)

/-!
## Concrete stores used by the counterexamples and witnesses
-/

/-- A `rad/refs` blob claiming to be signed by peer 6. -/
def wrongSignerBlob : Oid :=
  .blobSignedRefs .nil [] ⟨6⟩

/-- A store in which peer 5 is tracked for namespace 1 and peer 5's
`rad/refs` blob is present but signed by the wrong key. -/
def storeInvalidSig1 : Store :=
  { refs := [(⟨⟨1⟩, some ⟨5⟩, .rad_refs⟩,
      .direct (.commit (.tree (.cons "refs" wrongSignerBlob .nil)) .nil ""))],
    remotes := [.tracking ⟨1⟩ ⟨5⟩],
    objects := [] }

/-- A handle over `storeInvalidSig1` for local peer 9. -/
def storageC1 : Storage :=
  ⟨storeInvalidSig1, ⟨9⟩, ⟨9⟩⟩

/-- An entity for namespace 1 signed only by the local key (peer 9). -/
def metaSelfSigned : EntityData :=
  ⟨⟨1⟩, [(⟨9⟩, ⟨.ownedKey⟩)], []⟩

/-- A second copy of the invalid-signature store, for the `rad_refs`
counterexample. -/
def storeInvalidSig2 : Store :=
  { refs := [(⟨⟨2⟩, some ⟨5⟩, .rad_refs⟩,
      .direct (.commit (.tree (.cons "refs" (Oid.blobSignedRefs .nil [] ⟨6⟩) .nil)) .nil ""))],
    remotes := [.tracking ⟨2⟩ ⟨5⟩],
    objects := [] }

/-- A handle over `storeInvalidSig2`. -/
def storageC2 : Storage :=
  ⟨storeInvalidSig2, ⟨9⟩, ⟨9⟩⟩

/-- A store with a single branch head inside namespace 3. -/
def storeOneHead : Store :=
  { refs := [(⟨⟨3⟩, none, .head "master"⟩, .direct (.commit (.tree .nil) .nil "c"))],
    remotes := [],
    objects := [.commit (.tree .nil) .nil "c"] }

/-- A handle over `storeOneHead`. -/
def storageC3 : Storage :=
  ⟨storeOneHead, ⟨9⟩, ⟨9⟩⟩

/-- An empty handle for local peer 9. -/
def storageEmpty : Storage :=
  ⟨emptyStore, ⟨9⟩, ⟨9⟩⟩

/-- Remote metadata whose root hash (3) differs from the cloned URN (2). -/
def metaWrongRoot : EntityData :=
  ⟨⟨3⟩, [(⟨7⟩, ⟨.ownedKey⟩)], []⟩

/-- A prefetch that materialises peer 7's `rad/id` for namespace 2,
carrying `metaWrongRoot`. -/
def prefetchWrongRoot : Store → Except Error Store :=
  fun b => .ok { b with refs := b.refs ++
    [(⟨⟨2⟩, some ⟨7⟩, .rad_id⟩,
      .direct (.commit (.tree (.cons "id" (.blobEntity metaWrongRoot) .nil)) .nil ""))] }

/-- The URL cloned in the `clone_repo` witness: URN 2 from peer 7. -/
def urlWrongRoot : RadUrl :=
  ⟨⟨⟨2⟩, none⟩, ⟨7⟩⟩

/-- An entity for namespace 4, signed by the local key, listing the (locally
missing) certifier 8. -/
def metaMissingCertifier : EntityData :=
  ⟨⟨4⟩, [(⟨9⟩, ⟨.ownedKey⟩)], [⟨⟨8⟩, none⟩]⟩

/-- An entity for namespace 4 signed only by the foreign key 7. -/
def metaForeignSigned : EntityData :=
  ⟨⟨4⟩, [(⟨7⟩, ⟨.ownedKey⟩)], []⟩

/-- The store produced by `prefetchWrongRoot` on the empty store. -/
def storeAfterPrefetch : Store :=
  { refs := [(⟨⟨2⟩, some ⟨7⟩, .rad_id⟩,
      .direct (.commit (.tree (.cons "id" (.blobEntity metaWrongRoot) .nil)) .nil ""))],
    remotes := [],
    objects := [] }

/-- A first-degree tracked peer's signed `rad/refs` is available: reading
it either succeeds or fails precisely with a blob-not-found error. -/
def radRefsOfAvailable (st : Storage) (urn : RadUrn) (p : PeerId) : Prop :=
  (∃ r, st.rad_refs_of urn p = .ok r) ∨
    ∃ n, st.rad_refs_of urn p = .error (.blobNotFound n)

/-- The remotes entry `rad_refs` produces for a first-degree tracked peer:
the `cutoff` of the peer's signed remotes when its snapshot reads
successfully, and the empty map otherwise. -/
def radRefsEntryValue (st : Storage) (urn : RadUrn) (p : PeerId) :
    PeerId × List (PeerId × List PeerId) :=
  (p, match st.rad_refs_of urn p with
      | .ok refs => refs.remotes.cutoff
      | .error _ => [])

/-!
## Lemmas about the tracked-peer iterator
-/

theorem mem_trackedCollect (remotes : List RemoteName) (ns : Hash) (p : PeerId) :
    p ∈ trackedCollect remotes ns ↔ RemoteName.tracking ns p ∈ remotes := by
  induction remotes with
  | nil => simp [trackedCollect]
  | cons r rest ih =>
    cases r with
    | tracking ns' q =>
      by_cases h : ns' = ns
      · subst h
        simp [trackedCollect, ih, List.mem_cons]
      · simp only [trackedCollect, if_neg h, ih, List.mem_cons, RemoteName.tracking.injEq]
        constructor
        · exact Or.inr
        · rintro (⟨h1, _⟩ | h2)
          · exact absurd h1.symm h
          · exact h2
    | other s =>
      simp only [trackedCollect, ih, List.mem_cons]
      constructor
      · exact Or.inr
      · rintro (h1 | h2)
        · exact absurd h1 (by simp)
        · exact h2

theorem trackedCollect_eq_filterMap (remotes : List RemoteName) (ns : Hash) :
    trackedCollect remotes ns = remotes.filterMap (fun r =>
      match r with
      | .tracking ns' p => if ns' = ns then some p else none
      | .other _ => none) := by
  induction remotes with
  | nil => rfl
  | cons r rest ih =>
    cases r with
    | tracking ns' q =>
      by_cases h : ns' = ns <;> simp [trackedCollect, h, ih]
    | other s => simp [trackedCollect, ih]

/-- C8: the iterator returned by `tracked(u)` yields exactly those peer ids
`p` for which a configured remote named `<u.id>/<suffix>` exists with the
suffix parsing as `p`; remotes without the namespace prefix, and remotes
whose suffix does not parse as a peer id, are skipped rather than causing an
error (the iterator is a total filter over the remote list). -/
theorem tracked_iterator_spec (st : Storage) (urn : RadUrn) :
    (∀ p : PeerId, p ∈ st.tracked urn ↔ RemoteName.tracking urn.id p ∈ st.backend.remotes) ∧
    st.tracked urn = st.backend.remotes.filterMap (fun r =>
      match r with
      | .tracking ns p => if ns = urn.id then some p else none
      | .other _ => none) :=
  ⟨fun p => mem_trackedCollect st.backend.remotes urn.id p,
   trackedCollect_eq_filterMap st.backend.remotes urn.id⟩

/-- C9: for a peer distinct from the local peer id, `track(u, p)` followed
by `untrack(u, p)` succeeds and leaves `p` absent from `tracked(u)`;
`track(u, self)` fails with `SelfReferential`; and `track` of an
already-tracked peer succeeds idempotently, leaving the state unchanged. -/
theorem track_untrack_spec (st : Storage) (urn : RadUrn) (p : PeerId)
    (h : p ≠ st.peer_id) :
    (st.track urn p).1 = .ok () ∧
    ((st.track urn p).2.untrack urn p).1 = .ok () ∧
    p ∉ (((st.track urn p).2.untrack urn p).2.tracked urn) ∧
    (st.track urn st.peer_id).1 = .error .selfReferential ∧
    (tracking_remote_name urn p ∈ st.backend.remotes → st.track urn p = (.ok (), st)) := by
  have hself : (st.track urn st.peer_id).1 = .error .selfReferential := by
    simp [Storage.track]
  by_cases hm : tracking_remote_name urn p ∈ st.backend.remotes
  · have htrack : st.track urn p = (.ok (), st) := by
      simp [Storage.track, h, hm]
    refine ⟨by rw [htrack], ?_, ?_, hself, fun _ => htrack⟩
    · simp [htrack, Storage.untrack, hm]
    · rw [htrack]
      simp only [Storage.untrack, hm, if_pos]
      simp only [Storage.tracked, Storage.setBackend, mem_trackedCollect]
      simp [List.mem_filter, tracking_remote_name]
  · have htrack : st.track urn p =
        (.ok (), st.setBackend
          { st.backend with remotes := st.backend.remotes ++ [tracking_remote_name urn p] }) := by
      simp [Storage.track, h, hm]
    have hmem : tracking_remote_name urn p ∈
        st.backend.remotes ++ [tracking_remote_name urn p] := by simp
    refine ⟨by rw [htrack], ?_, ?_, hself, fun hc => absurd hc hm⟩
    · rw [htrack]
      simp [Storage.untrack, Storage.setBackend, hmem]
    · rw [htrack]
      simp only [Storage.untrack, Storage.setBackend, hmem, if_pos]
      simp only [Storage.tracked, mem_trackedCollect]
      simp [List.mem_filter, tracking_remote_name]

/-- C10: `has_commit` is total on the edge cases: it returns `Ok(false)`
(not an error) for the all-zero object id and for an object id absent from
the object database; barring backend faults (not modelled) it always
returns `Ok`. -/
theorem has_commit_edge_cases (st : Storage) (urn : RadUrn) (oid : Oid) :
    st.has_commit urn .zero = .ok false ∧
    (oid ∉ st.backend.objects → st.has_commit urn oid = .ok false) ∧
    ∃ b : Bool, st.has_commit urn oid = .ok b := by
  refine ⟨by simp [Storage.has_commit], ?_, ?_⟩
  · intro hmem
    by_cases hz : oid = Oid.zero
    · simp [Storage.has_commit, hz]
    · have : find_commit st.backend oid = none := by
        simp [find_commit, hmem]
      simp [Storage.has_commit, hz, this]
  · unfold Storage.has_commit
    split
    · exact ⟨false, rfl⟩
    · cases find_commit st.backend oid with
      | none => exact ⟨false, rfl⟩
      | some c => exact ⟨_, rfl⟩

/-- Witness for `track_untrack_spec` and `has_commit_edge_cases`
hypotheses, instantiated at peer 5 on the empty store. -/
theorem track_untrack_spec_witness :
    (5 : Nat) ≠ 9 ∧
    ((storageEmpty.track ⟨⟨3⟩, none⟩ ⟨5⟩).2.untrack ⟨⟨3⟩, none⟩ ⟨5⟩).1 = .ok () := by
  have h := track_untrack_spec storageEmpty ⟨⟨3⟩, none⟩ ⟨5⟩ (by decide)
  exact ⟨by decide, h.2.1⟩

/-- Witness for `has_commit_edge_cases`: the tree object is not in
`storageC1`'s (empty) object database. -/
theorem has_commit_edge_cases_witness :
    storageC1.has_commit ⟨⟨1⟩, none⟩ (.tree .nil) = .ok false := by
  have h := has_commit_edge_cases storageC1 ⟨⟨1⟩, none⟩ (.tree .nil)
  exact h.2.1 (by decide)

/-- C7: every successfully constructed signer-bearing handle satisfies
`peer_id = PeerId(signer)`; `with_signer` and `open_or_init` fail with
`SignerKeyMismatch` when the stored peer id differs from the key's;
`init` derives the peer id from the signer; and `open_or_init` falls back to
`init` exactly when `open` fails with a not-found backend error, other open
errors propagating. -/
theorem storage_signer_peer_id (d : Disk) (k : SecretKey) :
    (∀ st, open_or_init d k = .ok st → st.peer_id = PeerId.ofSecret k) ∧
    (∀ (stn : StorageNoSigner) (st : Storage),
      stn.with_signer k = .ok st → st.peer_id = PeerId.ofSecret k) ∧
    (∀ stn : StorageNoSigner, openStorage d = .ok stn → stn.peer_id ≠ PeerId.ofSecret k →
      stn.with_signer k = .error .signerKeyMismatch ∧
      open_or_init d k = .error .signerKeyMismatch) ∧
    (∀ st d', initStorage d k = .ok (st, d') → st.peer_id = PeerId.ofSecret k) ∧
    (open_or_init d k = (initStorage d k).map Prod.fst ↔ d = .absent) ∧
    (d = .corrupt → open_or_init d k = .error .config) := by
  have hws : ∀ (stn : StorageNoSigner) (st : Storage),
      stn.with_signer k = .ok st → st.peer_id = PeerId.ofSecret k := by
    intro stn st h
    by_cases hp : stn.peer_id = PeerId.ofSecret k
    · rw [StorageNoSigner.with_signer, if_neg (not_not_intro hp)] at h
      rw [Except.ok.injEq] at h
      subst h
      exact hp
    · rw [StorageNoSigner.with_signer, if_pos hp] at h
      exact Except.noConfusion h
  refine ⟨?_, hws, ?_, ?_, ?_, ?_⟩
  · intro st h
    cases d with
    | absent =>
      simp only [open_or_init, openStorage, initStorage, Except.map] at h
      rw [Except.ok.injEq] at h
      subst h
      rfl
    | initialized p b =>
      by_cases hp : p = PeerId.ofSecret k
      · simp only [open_or_init, openStorage, hp] at h
        rw [if_neg (by simp)] at h
        exact hws _ _ h
      · simp [open_or_init, openStorage, hp] at h
    | corrupt =>
      simp [open_or_init, openStorage] at h
  · intro stn hopen hne
    cases d with
    | absent => simp [openStorage] at hopen
    | initialized p b =>
      simp only [openStorage, Except.ok.injEq] at hopen
      subst hopen
      constructor
      · simp only [StorageNoSigner.with_signer, if_pos hne]
      · simp only [open_or_init, openStorage]
        rw [if_pos hne]
    | corrupt => simp [openStorage] at hopen
  · intro st d' h
    cases d with
    | absent =>
      simp only [initStorage, Except.ok.injEq, Prod.mk.injEq] at h
      rw [← h.1]
    | initialized p b => simp [initStorage] at h
    | corrupt => simp [initStorage] at h
  · cases d with
    | absent =>
      exact iff_of_true rfl rfl
    | initialized p b =>
      refine iff_of_false ?_ (by intro hc; exact Disk.noConfusion hc)
      by_cases hp : p = PeerId.ofSecret k
      · intro hc
        simp [open_or_init, openStorage, initStorage, StorageNoSigner.with_signer, hp,
          Except.map] at hc
      · intro hc
        simp [open_or_init, openStorage, initStorage, hp, Except.map] at hc
    | corrupt =>
      refine iff_of_false ?_ (by intro hc; exact Disk.noConfusion hc)
      intro hc
      simp [open_or_init, openStorage, initStorage, Except.map] at hc
  · intro hc
    subst hc
    rfl

/-- Witness for `storage_signer_peer_id`: opening a store initialised for
peer 3 with key 4 fails with `SignerKeyMismatch`. -/
theorem storage_signer_peer_id_witness :
    open_or_init (Disk.initialized ⟨3⟩ emptyStore) ⟨4⟩ = .error .signerKeyMismatch := by
  have h := storage_signer_peer_id (Disk.initialized ⟨3⟩ emptyStore) (⟨4⟩ : SecretKey)
  exact (h.2.2.1 ⟨emptyStore, ⟨3⟩⟩ rfl (by decide)).2

/-- C6: `create_repo` on an entity whose signature map lacks the local
signer's public key returns `NotSignedBySelf` (after the empty-signatures
check, which returns `UnsignedMetadata`), and writes nothing to the store. -/
theorem create_repo_not_signed_by_self (st : Storage) (meta : EntityData) :
    (meta.signatures = [] → st.create_repo meta = (.error .unsignedMetadata, st)) ∧
    (meta.signatures ≠ [] → meta.sigOf st.signer.publicKey = none →
      st.create_repo meta = (.error .notSignedBySelf, st)) := by
  constructor
  · intro h
    simp [Storage.create_repo, h]
  · intro h1 h2
    have hne : ¬ (meta.signatures.isEmpty = true) := by
      simpa using h1
    simp [Storage.create_repo, hne, h2]

/-- Witness for `create_repo_not_signed_by_self`: an entity signed only by
the foreign key 7 is rejected by the local peer 9 with no state change. -/
theorem create_repo_not_signed_by_self_witness :
    storageEmpty.create_repo metaForeignSigned = (.error .notSignedBySelf, storageEmpty) :=
  (create_repo_not_signed_by_self storageEmpty metaForeignSigned).2 (by decide) (by decide)

/-- C5: `create_repo` on an entity listing a locally missing certifier
returns `MissingCertifier` naming the first missing certifier and the
entity's URN, leaves the store untouched, and in particular leaves
`has_urn` of the entity's URN false when it was false before. -/
theorem create_repo_missing_certifier (st : Storage) (meta : EntityData)
    (self_sig : EntitySignature) (c : RadUrn)
    (h1 : meta.signatures ≠ [])
    (h2 : meta.sigOf st.signer.publicKey = some self_sig)
    (h3 : RefName.rad_id meta.urn.id = radSelfTarget meta self_sig ∨
      has_ref st.backend (radSelfTarget meta self_sig) = true)
    (h4 : meta.certifiers.find? (fun u => !has_urn st.backend u) = some c) :
    st.create_repo meta = (.error (.missingCertifier c meta.urn), st) ∧
    c ∈ meta.certifiers ∧ has_urn st.backend c = false ∧
    (has_urn st.backend meta.urn = false →
      has_urn (st.create_repo meta).2.backend meta.urn = false) := by
  have hne : ¬ (meta.signatures.isEmpty = true) := by
    simpa using h1
  have hcond : ¬ (RefName.rad_id meta.urn.id ≠ radSelfTarget meta self_sig ∧
      has_ref st.backend (radSelfTarget meta self_sig) = false) := by
    rcases h3 with h | h
    · intro hc
      exact hc.1 h
    · intro hc
      rw [h] at hc
      exact absurd hc.2 (by decide)
  have hmain : st.create_repo meta = (.error (.missingCertifier c meta.urn), st) := by
    have hcond2 : ¬RefName.rad_id meta.rootHash = radSelfTarget meta self_sig →
        has_ref st.backend (radSelfTarget meta self_sig) = true := by
      intro hne2
      rcases h3 with h | h
      · exact absurd (by simpa [EntityData.urn] using h) hne2
      · exact h
    simp [Storage.create_repo, hne, h2, h4, EntityData.urn]
    exact hcond2
  refine ⟨hmain, List.mem_of_find?_eq_some h4, ?_, ?_⟩
  · have hp := List.find?_some h4
    simpa using hp
  · intro h5
    rw [hmain]
    exact h5

/-- Witness for `create_repo_missing_certifier`: creating an entity that
lists the absent certifier 8 on the empty store fails with
`MissingCertifier` and leaves the store empty. -/
theorem create_repo_missing_certifier_witness :
    storageEmpty.create_repo metaMissingCertifier =
      (.error (.missingCertifier ⟨⟨8⟩, none⟩ ⟨⟨4⟩, none⟩), storageEmpty) :=
  (create_repo_missing_certifier storageEmpty metaMissingCertifier ⟨.ownedKey⟩ ⟨⟨8⟩, none⟩
    (by decide) (by decide) (by decide) (by decide)).1

/-- C4: in `clone_repo`, once prefetching succeeded and the remote peer's
metadata was read, empty signatures fail with `UnsignedMetadata` and a root
hash differing from the URL's URN id fails with
`RootHashMismatch (expected := urn.id) (actual := root_hash)`; in either
case `delete_repo(urn)` is run on the post-prefetch state before the error
is returned. -/
theorem clone_repo_validation_cleanup (st : Storage) (url : RadUrl)
    (pf ff : Store → Except Error Store) (b1 : Store) (meta : EntityData)
    (h0 : has_urn st.backend ⟨url.urn.id, none⟩ = false)
    (h1 : pf st.backend = .ok b1)
    (h2 : (st.setBackend b1).some_metadata_of ⟨url.urn.id, none⟩ (some url.authority) = .ok meta) :
    (meta.signatures = [] →
      st.clone_repo url pf ff =
        (.error .unsignedMetadata, (st.setBackend b1).delete_repo ⟨url.urn.id, none⟩)) ∧
    (meta.signatures ≠ [] → meta.rootHash ≠ url.urn.id →
      st.clone_repo url pf ff =
        (.error (.rootHashMismatch url.urn.id meta.rootHash),
          (st.setBackend b1).delete_repo ⟨url.urn.id, none⟩)) := by
  constructor
  · intro hempty
    simp [Storage.clone_repo, h0, h1, h2, hempty]
  · intro hne hroot
    have hne' : ¬ (meta.signatures.isEmpty = true) := by
      simpa using hne
    simp [Storage.clone_repo, h0, h1, h2, hne', hroot]

/-- Witness for `clone_repo_validation_cleanup`: cloning URN 2 from peer 7
whose metadata carries root hash 3 fails with `RootHashMismatch` and purges
the namespace. -/
theorem clone_repo_validation_cleanup_witness :
    storageEmpty.clone_repo urlWrongRoot prefetchWrongRoot Except.ok =
      (.error (.rootHashMismatch ⟨2⟩ ⟨3⟩),
        (storageEmpty.setBackend storeAfterPrefetch).delete_repo ⟨⟨2⟩, none⟩) :=
  (clone_repo_validation_cleanup storageEmpty urlWrongRoot prefetchWrongRoot Except.ok
    storeAfterPrefetch metaWrongRoot (by decide) rfl rfl).2
    (by decide) (by decide)

/-!
## Lemmas about `mapM` over `Except`
-/

theorem mapM_ok_of_forall {α β : Type} (f : α → Except Error β) (g : α → β) :
    ∀ l : List α, (∀ a ∈ l, f a = .ok (g a)) → l.mapM f = .ok (l.map g) := by
  intro l
  induction l with
  | nil => intro _; rfl
  | cons a rest ih =>
    intro h
    rw [List.mapM_cons, h a (List.mem_cons_self a rest),
      ih (fun b hb => h b (List.mem_cons_of_mem a hb))]
    rfl

theorem mapM_ok_mem {α β : Type} (f : α → Except Error β) :
    ∀ (l : List α) (out : List β), l.mapM f = .ok out → ∀ a ∈ l, ∃ b, f a = .ok b := by
  intro l
  induction l with
  | nil =>
    intro out _ a ha
    exact absurd ha (List.not_mem_nil a)
  | cons x rest ih =>
    intro out h a ha
    rw [List.mapM_cons] at h
    cases hf : f x with
    | error e =>
      rw [hf] at h
      simp [Bind.bind, Except.bind] at h
    | ok b =>
      rw [hf] at h
      rcases List.mem_cons.mp ha with rfl | hmem
      · exact ⟨b, hf⟩
      · cases hrest : rest.mapM f with
        | error e =>
          rw [hrest] at h
          simp [Bind.bind, Except.bind] at h
        | ok out' => exact ih out' hrest a hmem

theorem available_of_entry_ok (st : Storage) (urn : RadUrn) (p : PeerId)
    (b : PeerId × List (PeerId × List PeerId))
    (h : radRefsEntry st urn p = .ok b) : radRefsOfAvailable st urn p := by
  cases hr : st.rad_refs_of urn p with
  | ok r => exact Or.inl ⟨r, hr⟩
  | error e =>
    cases e with
    | blobNotFound n => exact Or.inr ⟨n, hr⟩
    | _ =>
      rw [radRefsEntry, hr] at h
      exact Except.noConfusion h

theorem entry_ok_of_available (st : Storage) (urn : RadUrn) (p : PeerId)
    (h : radRefsOfAvailable st urn p) :
    radRefsEntry st urn p = .ok (radRefsEntryValue st urn p) := by
  rcases h with ⟨r, hr⟩ | ⟨n, hr⟩ <;> simp [radRefsEntry, radRefsEntryValue, hr]

theorem mem_references_glob_heads (s : Store) (urn : RadUrn) (nm : String) (o : Oid) :
    (nm, o) ∈ references_glob_heads s urn ↔
    ∃ (branch : String) (t : RefTarget),
      (⟨urn.id, none, RefKind.head branch⟩, t) ∈ s.refs ∧
      resolveTarget s t = some o ∧ nm = "refs/heads/" ++ branch := by
  unfold references_glob_heads
  rw [List.mem_filterMap]
  constructor
  · rintro ⟨⟨n, t⟩, hmem, hf⟩
    obtain ⟨ns, rem, kind⟩ := n
    cases rem with
    | some q => simp at hf
    | none =>
      cases kind with
      | head branch =>
        by_cases hns : ns = urn.id
        · subst hns
          dsimp only at hf
          rw [if_pos rfl] at hf
          cases hres : resolveTarget s t with
          | none =>
            rw [hres] at hf
            exact absurd hf (by simp)
          | some o' =>
            rw [hres] at hf
            simp only [Option.map_some', Option.some.injEq, Prod.mk.injEq] at hf
            exact ⟨branch, t, hmem, by rw [hres, hf.2], hf.1.symm⟩
        · simp [hns] at hf
      | rad_id => simp at hf
      | rad_self => simp at hf
      | rad_refs => simp at hf
      | rad_certifier h => simp at hf
  · rintro ⟨branch, t, hmem, hres, rfl⟩
    exact ⟨(⟨urn.id, none, .head branch⟩, t), hmem, by simp [hres]⟩

/-- Counterexample to C2 as stated: in `storageC2`, peer 5 is first-degree
tracked for URN 2 and its `rad/refs` blob is present but signed by the
wrong key; `rad_refs` then fails with the signature error instead of
succeeding with an empty entry for peer 5. -/
theorem rad_refs_fails_on_invalid_signature :
    storageC2.tracked ⟨⟨2⟩, none⟩ = [⟨5⟩] ∧
    (∃ h r sb, blobTip storageC2.backend ⟨⟨2⟩, some ⟨5⟩, .rad_refs⟩ "refs" =
      .ok (.blobSignedRefs h r sb) ∧ sb ≠ ⟨5⟩) ∧
    storageC2.rad_refs_of ⟨⟨2⟩, none⟩ ⟨5⟩ = .error .refsig ∧
    storageC2.rad_refs ⟨⟨2⟩, none⟩ = .error .refsig :=
  ⟨rfl, ⟨.nil, [], ⟨6⟩, rfl, by decide⟩, rfl, rfl⟩

/-- C2 (amended): `rad_refs(u)` succeeds exactly when every first-degree
tracked peer's signed `rad/refs` snapshot is readable or absent (a present
but invalidly signed or undecodable snapshot makes `rad_refs` fail); on
success its heads are exactly the peeled `refs/heads/*` pairs of `u`'s
namespace and its remotes map the tracked peers, in order, to the `cutoff`
of their signed remotes (the empty map exactly when the blob is absent). -/
theorem rad_refs_entries_characterization (st : Storage) (urn : RadUrn) :
    ((∃ r, st.rad_refs urn = .ok r) ↔ ∀ p ∈ st.tracked urn, radRefsOfAvailable st urn p) ∧
    (∀ r, st.rad_refs urn = .ok r →
      r.heads = references_glob_heads st.backend urn ∧
      r.remotes = (st.tracked urn).map (radRefsEntryValue st urn)) ∧
    (∀ (nm : String) (o : Oid),
      (nm, o) ∈ references_glob_heads st.backend urn ↔
      ∃ (branch : String) (t : RefTarget),
        (⟨urn.id, none, RefKind.head branch⟩, t) ∈ st.backend.refs ∧
        resolveTarget st.backend t = some o ∧ nm = "refs/heads/" ++ branch) := by
  have hok : ∀ r, st.rad_refs urn = .ok r →
      (st.tracked urn).mapM (radRefsEntry st urn) = .ok r.remotes ∧
      r.heads = references_glob_heads st.backend urn := by
    intro r h
    rw [Storage.rad_refs] at h
    cases hm : (st.tracked urn).mapM (radRefsEntry st urn) with
    | error e =>
      rw [hm] at h
      exact Except.noConfusion h
    | ok out =>
      rw [hm] at h
      rw [Except.ok.injEq] at h
      subst h
      exact ⟨rfl, rfl⟩
  refine ⟨⟨?_, ?_⟩, ?_, fun nm o => mem_references_glob_heads st.backend urn nm o⟩
  · rintro ⟨r, h⟩ p hp
    obtain ⟨hm, _⟩ := hok r h
    obtain ⟨b, hb⟩ := mapM_ok_mem (radRefsEntry st urn) (st.tracked urn) r.remotes hm p hp
    exact available_of_entry_ok st urn p b hb
  · intro h
    refine ⟨⟨references_glob_heads st.backend urn,
      (st.tracked urn).map (radRefsEntryValue st urn)⟩, ?_⟩
    rw [Storage.rad_refs,
      mapM_ok_of_forall (radRefsEntry st urn) (radRefsEntryValue st urn) (st.tracked urn)
        (fun p hp => entry_ok_of_available st urn p (h p hp))]
  · intro r h
    obtain ⟨hm, hheads⟩ := hok r h
    refine ⟨hheads, ?_⟩
    have hav : ∀ p ∈ st.tracked urn, radRefsOfAvailable st urn p := by
      intro p hp
      obtain ⟨b, hb⟩ := mapM_ok_mem (radRefsEntry st urn) (st.tracked urn) r.remotes hm p hp
      exact available_of_entry_ok st urn p b hb
    have := mapM_ok_of_forall (radRefsEntry st urn) (radRefsEntryValue st urn) (st.tracked urn)
      (fun p hp => entry_ok_of_available st urn p (hav p hp))
    rw [this] at hm
    rw [Except.ok.injEq] at hm
    exact hm.symm

/-- Witness for `rad_refs_entries_characterization`: on `storageC3` (one
branch head, no tracked peers) `rad_refs` succeeds with exactly that head
and no remotes. -/
theorem rad_refs_entries_characterization_witness :
    storageC3.rad_refs ⟨⟨3⟩, none⟩ =
      .ok ⟨[("refs/heads/master", .commit (.tree .nil) .nil "c")], []⟩ := by
  have h := (rad_refs_entries_characterization storageC3 ⟨⟨3⟩, none⟩).1.2
    (by intro p hp; simp [Storage.tracked, storageC3, storeOneHead, trackedCollect] at hp)
  obtain ⟨r, hr⟩ := h
  have h2 := (rad_refs_entries_characterization storageC3 ⟨⟨3⟩, none⟩).2.1 r hr
  rw [hr]
  congr 1
  cases r with
  | mk heads remotes =>
    obtain ⟨hh, hrem⟩ := h2
    simp only at hh hrem
    rw [hh, hrem]
    rfl

/-!
## Lemmas about reference updates
-/

theorem findRefList_setRefList_self (n : RefName) (t : RefTarget) :
    ∀ l, findRefList (setRefList l n t) n = some t := by
  intro l
  induction l with
  | nil => simp [setRefList, findRefList]
  | cons pr rest ih =>
    simp only [setRefList]
    by_cases hp : pr.1 = n
    · rw [if_pos hp]
      simp [findRefList]
    · rw [if_neg hp]
      simp only [findRefList]
      rw [if_neg hp]
      exact ih

theorem findRefList_setRefList_ne (n m : RefName) (t : RefTarget) (h : m ≠ n) :
    ∀ l : List (RefName × RefTarget), findRefList (setRefList l n t) m = findRefList l m := by
  intro l
  induction l with
  | nil =>
    simp only [setRefList, findRefList]
    rw [if_neg (fun heq => h heq.symm)]
  | cons pr rest ih =>
    simp only [setRefList]
    by_cases hp : pr.1 = n
    · rw [if_pos hp]
      simp only [findRefList]
      rw [if_neg (fun heq => h heq.symm), if_neg (fun heq => h (hp.symm.trans heq).symm)]
    · rw [if_neg hp]
      simp only [findRefList]
      by_cases hm : pr.1 = m
      · rw [if_pos hm, if_pos hm]
      · rw [if_neg hm, if_neg hm]
        exact ih

theorem createSymrefsGo_ok :
    ∀ (l : List (RefName × RefName)) (s : Store), ∃ s', createSymrefsGo s l = .ok s' := by
  intro l
  induction l with
  | nil => intro s; exact ⟨s, rfl⟩
  | cons pr rest ih =>
    intro s
    obtain ⟨src, tgt⟩ := pr
    have hrs : referenceSymbolic s src tgt true = .ok (setRef s src (.symbolic tgt)) := by
      simp [referenceSymbolic]
    obtain ⟨s', hs'⟩ := ih (setRef s src (.symbolic tgt))
    exact ⟨s', by simp only [createSymrefsGo, hrs]; exact hs'⟩

theorem createSymrefsGo_findRef :
    ∀ (l : List (RefName × RefName)) (s s' : Store) (n : RefName),
      createSymrefsGo s l = .ok s' → (∀ pr ∈ l, pr.1 ≠ n) → findRef s' n = findRef s n := by
  intro l
  induction l with
  | nil =>
    intro s s' n h _
    rw [createSymrefsGo, Except.ok.injEq] at h
    rw [← h]
  | cons pr rest ih =>
    intro s s' n h hne
    obtain ⟨src, tgt⟩ := pr
    have hrs : referenceSymbolic s src tgt true = .ok (setRef s src (.symbolic tgt)) := by
      simp [referenceSymbolic]
    rw [createSymrefsGo, hrs] at h
    dsimp only at h
    have h1 := ih (setRef s src (.symbolic tgt)) s' n h
      (fun pr hpr => hne pr (List.mem_cons_of_mem _ hpr))
    rw [h1]
    have hsrc : src ≠ n := hne (src, tgt) (List.mem_cons_self _ _)
    exact findRefList_setRefList_ne src n (.symbolic tgt) (fun heq => hsrc heq.symm) s.refs

theorem track_preserves (st : Storage) (urn : RadUrn) (p : PeerId) :
    (st.track urn p).2.backend.refs = st.backend.refs ∧
    (st.track urn p).2.peer_id = st.peer_id := by
  by_cases hp : p = st.peer_id
  · simp [Storage.track, hp]
  · by_cases hm : tracking_remote_name urn p ∈ st.backend.remotes
    · simp [Storage.track, hp, hm]
    · simp [Storage.track, hp, hm, Storage.setBackend]

theorem trackSignersGo_preserves (u : RadUrn) :
    ∀ (l : List (PeerId × Option RadUrn)) (st : Storage),
      (trackSignersGo u st l).2.backend.refs = st.backend.refs := by
  intro l
  induction l with
  | nil => intro st; rfl
  | cons pr rest ih =>
    intro st
    obtain ⟨peer, urnOpt⟩ := pr
    rw [trackSignersGo]
    generalize hg : st.track u peer = ts
    obtain ⟨r1, st1⟩ := ts
    have hp1 : st1.backend.refs = st.backend.refs := by
      have hpp := (track_preserves st u peer).1
      rw [hg] at hpp
      exact hpp
    cases r1 with
    | error e =>
      dsimp only
      exact hp1
    | ok un =>
      dsimp only
      cases urnOpt with
      | none =>
        dsimp only
        rw [ih st1]
        exact hp1
      | some urn2 =>
        dsimp only
        generalize hg2 : st1.track urn2 peer = ts2
        obtain ⟨r2, st2⟩ := ts2
        have hp2 : st2.backend.refs = st1.backend.refs := by
          have hpp := (track_preserves st1 urn2 peer).1
          rw [hg2] at hpp
          exact hpp
        cases r2 with
        | error e =>
          dsimp only
          rw [hp2]
          exact hp1
        | ok un2 =>
          dsimp only
          rw [ih st2, hp2]
          exact hp1

theorem track_signers_preserves_refs (st : Storage) (meta : EntityData) :
    (st.track_signers meta).2.backend.refs = st.backend.refs :=
  trackSignersGo_preserves meta.urn _ st

theorem update_refs_shape (st : Storage) (urn : RadUrn) :
    (∃ e, st.update_refs urn = (.error e, st)) ∨ (st.update_refs urn).1 = .ok () := by
  cases hr : st.rad_refs urn with
  | error e =>
    left
    exact ⟨e, by simp [Storage.update_refs, hr]⟩
  | ok refs =>
    right
    rw [Storage.update_refs, hr]
    dsimp only
    split
    · split
      · rfl
      · rfl
    · rfl

theorem update_refs_error_state (st : Storage) (urn : RadUrn) (e : Error)
    (h : (st.update_refs urn).1 = .error e) : (st.update_refs urn).2 = st := by
  rcases update_refs_shape st urn with ⟨e', heq⟩ | hok
  · rw [heq]
  · rw [hok] at h
    exact Except.noConfusion h

theorem createRepoMutations_error_keeps_rad_id (st1 : Storage) (meta : EntityData)
    (urn : RadUrn) (rs rst : RefName) (e : Error)
    (hrs : rs ≠ RefName.rad_id meta.urn.id)
    (h : (createRepoMutations st1 meta urn rs rst).1 = .error e) :
    findRef (createRepoMutations st1 meta urn rs rst).2.backend (RefName.rad_id meta.urn.id) =
      findRef st1.backend (RefName.rad_id meta.urn.id) := by
  obtain ⟨b2, h6⟩ := createSymrefsGo_ok (symrefPairs meta rs rst) st1.backend
  have hkeys : ∀ pr ∈ symrefPairs meta rs rst, pr.1 ≠ RefName.rad_id meta.urn.id := by
    intro pr hpr
    rcases List.mem_cons.mp hpr with rfl | hmem
    · exact hrs
    · obtain ⟨cert, _, rfl⟩ := List.mem_map.mp hmem
      simp [RefName.rad_certifier, RefName.rad_id]
  have hb2 : findRef b2 (RefName.rad_id meta.urn.id) =
      findRef st1.backend (RefName.rad_id meta.urn.id) :=
    createSymrefsGo_findRef _ _ _ _ h6 hkeys
  rw [createRepoMutations, h6] at h ⊢
  dsimp only at h ⊢
  generalize hg7 : (st1.setBackend b2).track_signers meta = ts at h ⊢
  obtain ⟨r7, st3⟩ := ts
  have hp7 : st3.backend.refs = b2.refs := by
    have hpp := track_signers_preserves_refs (st1.setBackend b2) meta
    rw [hg7] at hpp
    exact hpp
  cases r7 with
  | error e7 =>
    dsimp only at h ⊢
    show findRefList st3.backend.refs _ = _
    rw [hp7]
    exact hb2
  | ok u7 =>
    dsimp only at h ⊢
    generalize hg8 : st3.update_refs urn = us at h ⊢
    obtain ⟨r8, st4⟩ := us
    cases r8 with
    | error e8 =>
      have hst4 : st4 = st3 := by
        have hes := update_refs_error_state st3 urn e8
        rw [hg8] at hes
        exact hes rfl
      dsimp only at h ⊢
      rw [hst4]
      show findRefList st3.backend.refs _ = _
      rw [hp7]
      exact hb2
    | ok u8 =>
      dsimp only at h
      exact Except.noConfusion h

/-- Counterexample to C1 as stated: on `storageC1`, `create_repo` of
`metaSelfSigned` performs the initial commit (step 7) and then fails inside
`update_refs` (tracked peer 5's `rad/refs` is invalidly signed); the error
is returned, yet the namespace is not purged — `rad/id` still exists. -/
theorem create_repo_update_refs_failure_keeps_namespace :
    (storageC1.create_repo metaSelfSigned).1 = .error .refsig ∧
    (findRef (storageC1.create_repo metaSelfSigned).2.backend
      (RefName.rad_id ⟨1⟩)).isSome = true ∧
    has_urn (storageC1.create_repo metaSelfSigned).2.backend ⟨⟨1⟩, none⟩ = true :=
  ⟨rfl, rfl, rfl⟩

/-- C1 (amended): when `create_repo` returns an error, either the store is
untouched (a pre-commit validation failure, or a failure of the initial
commit itself) or the namespace is left in place with `rad/id` still
present — failures of `track_signers` and of `update_refs`, which occur
after step 7, propagate the error without running `delete_repo`; only the
symbolic-reference creation step is guarded by `delete_repo`. -/
theorem create_repo_error_cleanup (st : Storage) (meta : EntityData) (e : Error)
    (h : (st.create_repo meta).1 = .error e) :
    (st.create_repo meta).2 = st ∨
    has_urn (st.create_repo meta).2.backend meta.urn = true := by
  by_cases h1 : meta.signatures.isEmpty = true
  · left
    simp [Storage.create_repo, h1]
  · cases h2 : meta.sigOf st.signer.publicKey with
    | none =>
      left
      simp [Storage.create_repo, h1, h2]
    | some sig =>
      rw [Storage.create_repo, if_neg h1, h2] at h ⊢
      dsimp only at h ⊢
      by_cases h3 : RefName.rad_id meta.urn.id ≠ radSelfTarget meta sig ∧
          has_ref st.backend (radSelfTarget meta sig) = false
      · rw [if_pos h3] at h ⊢
        left
        rfl
      · rw [if_neg h3] at h ⊢
        generalize hg4 : meta.certifiers.find? (fun c => !has_urn st.backend c) = fc at h ⊢
        cases fc with
        | some c =>
          left
          rfl
        | none =>
          try dsimp only at h ⊢
          rw [Storage.commit_initial_meta] at h ⊢
          try dsimp only at h ⊢
          generalize hg5 : findRef st.backend (RefName.rad_id meta.urn.id) = fr at h ⊢
          cases fr with
          | some t =>
            left
            rfl
          | none =>
            try dsimp only at h ⊢
            right
            have hrs : RefName.rad_self meta.urn.id none ≠ RefName.rad_id meta.urn.id := by
              simp [RefName.rad_self, RefName.rad_id]
            have hkeep := createRepoMutations_error_keeps_rad_id _ meta
              ⟨meta.rootHash, none⟩ (RefName.rad_self meta.urn.id none)
              (radSelfTarget meta sig) e hrs h
            show (findRef _ (RefName.rad_id meta.urn.id)).isSome = true
            rw [hkeep]
            show (findRefList (setRefList st.backend.refs (RefName.rad_id meta.urn.id)
              (.direct _)) (RefName.rad_id meta.urn.id)).isSome = true
            rw [findRefList_setRefList_self]
            rfl

/-- Witness for `create_repo_error_cleanup` at the concrete failing run of
the counterexample store. -/
theorem create_repo_error_cleanup_witness :
    (storageC1.create_repo metaSelfSigned).2 = storageC1 ∨
    has_urn (storageC1.create_repo metaSelfSigned).2.backend metaSelfSigned.urn = true :=
  create_repo_error_cleanup storageC1 metaSelfSigned .refsig rfl

/-!
## Stability of `rad_refs` under an update of the local `rad/refs` reference
-/

theorem findRefList_mem :
    ∀ (l : List (RefName × RefTarget)) (n : RefName) (v : RefTarget),
      findRefList l n = some v → (n, v) ∈ l := by
  intro l n v h
  induction l with
  | nil => exact Option.noConfusion h
  | cons pr rest ih =>
    rw [findRefList] at h
    by_cases hp : pr.1 = n
    · rw [if_pos hp, Option.some.injEq] at h
      exact List.mem_cons.mpr (Or.inl (by rw [← hp, ← h]))
    · rw [if_neg hp] at h
      exact List.mem_cons_of_mem pr (ih h)

theorem mem_setRefList :
    ∀ (l : List (RefName × RefTarget)) (n : RefName) (t : RefTarget)
      (pr : RefName × RefTarget), pr ∈ setRefList l n t → pr ∈ l ∨ pr = (n, t) := by
  intro l n t pr h
  induction l with
  | nil =>
    rw [setRefList] at h
    rw [List.mem_singleton] at h
    exact Or.inr h
  | cons q rest ih =>
    rw [setRefList] at h
    by_cases hq : q.1 = n
    · rw [if_pos hq] at h
      rcases List.mem_cons.mp h with rfl | hm
      · exact Or.inr rfl
      · exact Or.inl (List.mem_cons_of_mem q hm)
    · rw [if_neg hq] at h
      rcases List.mem_cons.mp h with rfl | hm
      · exact Or.inl (List.mem_cons_self _ _)
      · rcases ih hm with h1 | h2
        · exact Or.inl (List.mem_cons_of_mem q h1)
        · exact Or.inr h2

theorem noSymTo_setRef (s : Store) (R n : RefName) (o : Oid) (hno : NoSymTo s R) :
    NoSymTo (setRef s n (.direct o)) R := by
  intro pr hpr
  rcases mem_setRefList s.refs n (.direct o) pr hpr with hm | heq
  · exact hno pr hm
  · rw [heq]
    exact fun hc => RefTarget.noConfusion hc

theorem resolveName_setRef (s : Store) (R : RefName) (t' : RefTarget)
    (hno : NoSymTo s R) :
    ∀ (fuel : Nat) (n : RefName), n ≠ R →
      resolveName (setRef s R t') fuel n = resolveName s fuel n := by
  intro fuel
  induction fuel with
  | zero => intro n _; rfl
  | succ k ih =>
    intro n hn
    simp only [resolveName, findRef, setRef]
    rw [findRefList_setRefList_ne R n t' hn s.refs]
    cases hv : findRefList s.refs n with
    | none => rfl
    | some tv =>
      cases tv with
      | direct o => rfl
      | symbolic m =>
        have hmem : (n, RefTarget.symbolic m) ∈ s.refs := findRefList_mem s.refs n _ hv
        have hm : m ≠ R := fun hc => hno _ hmem (by rw [hc])
        exact ih m hm

theorem resolveTarget_setRef_mem (s : Store) (R : RefName) (t' : RefTarget)
    (hno : NoSymTo s R) (pr : RefName × RefTarget) (hpr : pr ∈ s.refs) :
    resolveTarget (setRef s R t') pr.2 = resolveTarget s pr.2 := by
  cases htv : pr.2 with
  | direct o => rfl
  | symbolic m =>
    have hm : m ≠ R := fun hc => hno pr hpr (by rw [htv, hc])
    exact resolveName_setRef s R t' hno symrefMaxDepth m hm

theorem filterMap_congr_mem {α β : Type} (f g : α → Option β) :
    ∀ l : List α, (∀ a ∈ l, f a = g a) → l.filterMap f = l.filterMap g := by
  intro l
  induction l with
  | nil => intro _; rfl
  | cons a rest ih =>
    intro h
    rw [List.filterMap_cons, List.filterMap_cons, h a (List.mem_cons_self a rest),
      ih (fun b hb => h b (List.mem_cons_of_mem a hb))]

theorem filterMap_setRefList {β : Type} (R : RefName) (t' : RefTarget)
    (f f' : RefName × RefTarget → Option β) :
    ∀ l : List (RefName × RefTarget),
      (∀ pr ∈ l, f' pr = f pr) → (∀ v, f (R, v) = none) → (∀ v, f' (R, v) = none) →
      (setRefList l R t').filterMap f' = l.filterMap f := by
  intro l
  induction l with
  | nil =>
    intro _ _ hR'
    rw [setRefList, List.filterMap_cons, hR' t']
    rfl
  | cons pr rest ih =>
    intro hmem hR hR'
    rw [setRefList]
    by_cases hp : pr.1 = R
    · rw [if_pos hp, List.filterMap_cons, List.filterMap_cons, hR' t']
      have hfpr : f pr = none := by
        have hx := hR pr.2
        rw [← hp] at hx
        exact hx
      rw [hfpr]
      exact filterMap_congr_mem f' f rest
        (fun a ha => hmem a (List.mem_cons_of_mem pr ha))
    · rw [if_neg hp, List.filterMap_cons, List.filterMap_cons,
        hmem pr (List.mem_cons_self pr rest),
        ih (fun a ha => hmem a (List.mem_cons_of_mem pr ha)) hR hR']

theorem references_glob_heads_setRef (s : Store) (nsR : Hash) (t' : RefTarget)
    (urn : RadUrn) (hno : NoSymTo s (RefName.rad_refs nsR none)) :
    references_glob_heads (setRef s (RefName.rad_refs nsR none) t') urn =
      references_glob_heads s urn := by
  unfold references_glob_heads
  refine filterMap_setRefList (RefName.rad_refs nsR none) t' _ _ s.refs ?_ ?_ ?_
  · intro pr hpr
    obtain ⟨⟨ns, rem, kind⟩, tv⟩ := pr
    cases rem with
    | some q => rfl
    | none =>
      cases kind with
      | rad_id => rfl
      | rad_self => rfl
      | rad_refs => rfl
      | rad_certifier hc => rfl
      | head branch =>
        dsimp only
        by_cases hns : ns = urn.id
        · rw [if_pos hns, if_pos hns]
          rw [resolveTarget_setRef_mem s (RefName.rad_refs nsR none) t' hno
            (⟨ns, none, .head branch⟩, tv) hpr]
        · rw [if_neg hns, if_neg hns]
  · intro v; rfl
  · intro v; rfl

theorem blobTip_setRef (s : Store) (nsR : Hash) (t' : RefTarget) (n : RefName)
    (path : String) (hno : NoSymTo s (RefName.rad_refs nsR none))
    (hn : n ≠ RefName.rad_refs nsR none) :
    blobTip (setRef s (RefName.rad_refs nsR none) t') n path = blobTip s n path := by
  unfold blobTip
  have hf : findRef (setRef s (RefName.rad_refs nsR none) t') n = findRef s n :=
    findRefList_setRefList_ne (RefName.rad_refs nsR none) n t' hn s.refs
  rw [hf]
  cases hv : findRef s n with
  | none => rfl
  | some tv =>
    have hp : peelToCommit (setRef s (RefName.rad_refs nsR none) t') tv =
        peelToCommit s tv := by
      cases tv with
      | direct o => rfl
      | symbolic m =>
        have hmem : (n, RefTarget.symbolic m) ∈ s.refs := findRefList_mem s.refs n _ hv
        have hm : m ≠ RefName.rad_refs nsR none := fun hc => hno _ hmem (by rw [hc])
        unfold peelToCommit resolveTarget
        dsimp only
        rw [resolveName_setRef s (RefName.rad_refs nsR none) t' hno symrefMaxDepth m hm]
    dsimp only
    rw [hp]

theorem rad_refs_of_setRef (st : Storage) (x : Store) (nsR : Hash) (t' : RefTarget)
    (urn : RadUrn) (p : PeerId) (hno : NoSymTo x (RefName.rad_refs nsR none)) :
    Storage.rad_refs_of (st.setBackend (setRef x (RefName.rad_refs nsR none) t')) urn p =
      Storage.rad_refs_of (st.setBackend x) urn p := by
  unfold Storage.rad_refs_of
  dsimp only [Storage.setBackend]
  have hn : (⟨urn.id, some p, .rad_refs⟩ : RefName) ≠ RefName.rad_refs nsR none := by
    simp [RefName.rad_refs]
  rw [blobTip_setRef x nsR t' _ "refs" hno hn]

theorem mapM_congr {α β : Type} (f g : α → Except Error β) :
    ∀ l : List α, (∀ a ∈ l, f a = g a) → l.mapM f = l.mapM g := by
  intro l
  induction l with
  | nil => intro _; rfl
  | cons a rest ih =>
    intro h
    rw [List.mapM_cons, List.mapM_cons, h a (List.mem_cons_self a rest),
      ih (fun b hb => h b (List.mem_cons_of_mem a hb))]

theorem rad_refs_commitOnto (st : Storage) (urn : RadUrn) (b t c : Oid)
    (hno : NoSymTo st.backend (RefName.rad_refs urn.id none)) :
    Storage.rad_refs
        (st.setBackend (commitOnto st.backend (RefName.rad_refs urn.id none) b t c)) urn =
      st.rad_refs urn := by
  have h0 : Storage.rad_refs
      (st.setBackend (commitOnto st.backend (RefName.rad_refs urn.id none) b t c)) urn =
      Storage.rad_refs
        (st.setBackend (setRef st.backend (RefName.rad_refs urn.id none) (.direct c))) urn := rfl
  rw [h0]
  unfold Storage.rad_refs
  have htr : (st.setBackend
      (setRef st.backend (RefName.rad_refs urn.id none) (.direct c))).tracked urn =
      st.tracked urn := rfl
  rw [htr]
  have hent : ∀ p ∈ st.tracked urn,
      radRefsEntry
        (st.setBackend (setRef st.backend (RefName.rad_refs urn.id none) (.direct c))) urn p =
      radRefsEntry st urn p := by
    intro p _
    unfold radRefsEntry
    have hro : Storage.rad_refs_of
        (st.setBackend (setRef st.backend (RefName.rad_refs urn.id none) (.direct c))) urn p =
        st.rad_refs_of urn p :=
      rad_refs_of_setRef st st.backend urn.id (.direct c) urn p hno
    rw [hro]
  rw [mapM_congr _ _ (st.tracked urn) hent]
  have hh : references_glob_heads
      (st.setBackend (setRef st.backend (RefName.rad_refs urn.id none) (.direct c))).backend urn =
      references_glob_heads st.backend urn :=
    references_glob_heads_setRef st.backend urn.id (.direct c) urn hno
  rw [hh]

theorem countCommits_commitOnto (s : Store) (R : RefName) (b t c : Oid)
    (hb : b.isCommit = false) (ht : t.isCommit = false) (hc : c.isCommit = true) :
    countCommits (commitOnto s R b t c).objects = countCommits s.objects + 1 := by
  show countCommits (s.objects ++ [b, t, c]) = countCommits s.objects + 1
  rw [countCommits, countCommits, List.countP_append]
  congr 1
  simp [List.countP_cons, hb, ht, hc]

theorem update_refs_on_committed (st : Storage) (urn : RadUrn) (refs : Refs)
    (blob tree c : Oid)
    (hno : NoSymTo st.backend (RefName.rad_refs urn.id none))
    (hr : st.rad_refs urn = .ok refs)
    (hblob : blob = signedRefsBlob refs st.signer)
    (htree : tree = Oid.tree (.cons "refs" blob .nil))
    (hct : c.treeOf = some tree) (hcc : c.isCommit = true) :
    (st.setBackend
        (commitOnto st.backend (RefName.rad_refs urn.id none) blob tree c)).update_refs urn
      = (.ok (),
        st.setBackend (commitOnto st.backend (RefName.rad_refs urn.id none) blob tree c)) := by
  rw [Storage.update_refs]
  rw [rad_refs_commitOnto st urn blob tree c hno, hr]
  dsimp only
  have hfr : findRef (st.setBackend
      (commitOnto st.backend (RefName.rad_refs urn.id none) blob tree c)).backend
      (RefName.rad_refs urn.id none) = some (.direct c) := by
    show findRefList (setRefList st.backend.refs (RefName.rad_refs urn.id none) _)
      (RefName.rad_refs urn.id none) = _
    exact findRefList_setRefList_self _ _ _
  rw [hfr]
  dsimp only
  have hpc : peelToCommit (st.setBackend
      (commitOnto st.backend (RefName.rad_refs urn.id none) blob tree c)).backend
      (.direct c) = some c := by
    simp [peelToCommit, resolveTarget, hcc]
  rw [hpc]
  dsimp only
  have hcond : c.treeOf = some (Oid.tree (.cons "refs" (signedRefsBlob refs
      (st.setBackend
        (commitOnto st.backend (RefName.rad_refs urn.id none) blob tree c)).signer) .nil)) := by
    show c.treeOf = some (Oid.tree (.cons "refs" (signedRefsBlob refs st.signer) .nil))
    rw [hct, htree, hblob]
  rw [if_pos hcond]

theorem countCommits_commitOnto_le (s : Store) (R : RefName) (refs : Refs)
    (k : SecretKey) (t : Oid) (ps : OidList) (msg : String) :
    countCommits (commitOnto s R (signedRefsBlob refs k)
      (Oid.tree (.cons "refs" (signedRefsBlob refs k) .nil)) (Oid.commit t ps msg)).objects
      = countCommits s.objects + 1 :=
  countCommits_commitOnto s R _ _ _ rfl rfl rfl

/-- C3: after a successful `update_refs(u)` on a store whose symbolic
references do not target the local `rad/refs` (which the code never
creates), a second `update_refs(u)` succeeds and is the identity — the new
tree equals the parent commit's tree, so the commit is skipped — and hence
a third call is also the identity; the two calls together create at most
one new commit on `rad/refs`. -/
theorem update_refs_fixpoint (st st1 : Storage) (urn : RadUrn)
    (hsym : NoSymTo st.backend (RefName.rad_refs urn.id none))
    (h1 : st.update_refs urn = (.ok (), st1)) :
    st1.update_refs urn = (.ok (), st1) ∧
    countCommits st1.backend.objects ≤ countCommits st.backend.objects + 1 := by
  cases hr : st.rad_refs urn with
  | error e =>
    rw [Storage.update_refs, hr] at h1
    injection h1 with h1a h1b
    exact Except.noConfusion h1a
  | ok refs =>
    rw [Storage.update_refs, hr] at h1
    dsimp only at h1
    generalize hgf : findRef st.backend (RefName.rad_refs urn.id none) = fr at h1
    cases fr with
    | none =>
      dsimp only at h1
      injection h1 with h1a h1b
      rw [← h1b]
      refine ⟨update_refs_on_committed st urn refs _ _ _ hsym hr rfl rfl rfl rfl, ?_⟩
      exact le_of_eq (countCommits_commitOnto_le st.backend
        (RefName.rad_refs urn.id none) refs st.signer _ _ "")
    | some tpar =>
      dsimp only at h1
      generalize hgp : peelToCommit st.backend tpar = pt at h1
      cases pt with
      | none =>
        dsimp only at h1
        injection h1 with h1a h1b
        rw [← h1b]
        refine ⟨update_refs_on_committed st urn refs _ _ _ hsym hr rfl rfl rfl rfl, ?_⟩
        exact le_of_eq (countCommits_commitOnto_le st.backend
          (RefName.rad_refs urn.id none) refs st.signer _ _ "")
      | some p =>
        dsimp only at h1
        by_cases hguard : p.treeOf =
            some (Oid.tree (.cons "refs" (signedRefsBlob refs st.signer) .nil))
        · rw [if_pos hguard] at h1
          injection h1 with h1a h1b
          rw [← h1b]
          constructor
          · rw [Storage.update_refs, hr]
            dsimp only
            rw [hgf]
            dsimp only
            rw [hgp]
            dsimp only
            rw [if_pos hguard]
          · exact Nat.le_succ _
        · rw [if_neg hguard] at h1
          injection h1 with h1a h1b
          rw [← h1b]
          refine ⟨update_refs_on_committed st urn refs _ _ _ hsym hr rfl rfl rfl rfl, ?_⟩
          exact le_of_eq (countCommits_commitOnto_le st.backend
            (RefName.rad_refs urn.id none) refs st.signer _ _ "")

/-- Witness for `update_refs_fixpoint` on the one-head store. -/
theorem update_refs_fixpoint_witness :
    (storageC3.update_refs ⟨⟨3⟩, none⟩).2.update_refs ⟨⟨3⟩, none⟩ =
      (.ok (), (storageC3.update_refs ⟨⟨3⟩, none⟩).2) :=
  (update_refs_fixpoint storageC3 (storageC3.update_refs ⟨⟨3⟩, none⟩).2 ⟨⟨3⟩, none⟩
    (by decide) rfl).1

end Radicle
